import Mathlib

/-!
Verification development for `subreddit_stats.py`, the aggregation and
report engine of the `prawtools` repository.  The Python source is shallowly
embedded below: pure computations become Lean functions, the mutable
`SubRedditStats` attributes become explicit state passed through the
functions, Python exceptions become `Option`/`Except` results, and the
unbounded `while True` retry loop is given explicit fuel.  Timestamps
(Python floats holding Unix seconds) are modelled as rationals, on which
the only operations the program performs (comparison, `max`, subtraction,
`%d` truncation) are exact.
-/

namespace SubredditStats

/-- Constant `DAYS_IN_SECONDS = 60 * 60 * 24` from the source. -/
def DAYS_IN_SECONDS : ℕ := 60 * 60 * 24

/-- Constant `MAX_BODY_SIZE = 10000` from the source. -/
def MAX_BODY_SIZE : ℕ := 10000

/-- Boolean test that `p` is a leading segment of `l`; models Python's
`str.startswith` and the anchored part of regular-expression matching. -/
def listStarts : List Char → List Char → Bool
  | [], _ => true
  | _ :: _, [] => false
  | p :: ps, c :: cs => p == c && listStarts ps cs

/-- Models `str.startswith(pre)` on Lean strings. -/
def strStarts (pre s : String) : Bool := listStarts pre.data s.data

/-- The fixed text of the continuation-marker pattern `SRS Marker: ` that
precedes the digits in `re_marker = re.compile('SRS Marker: (\\d+)')`. -/
def markerPat : List Char := ['S', 'R', 'S', ' ', 'M', 'a', 'r', 'k', 'e', 'r', ':', ' ']

/-- Numeric value of a run of decimal digit characters, as produced by
`float(val)` on the matched group (the value is an exact integer). -/
def digitsVal (ds : List Char) : ℕ := ds.foldl (fun a c => a * 10 + (c.toNat - 48)) 0

/-- The decimal digit character for `n < 10`. -/
def digitChar (n : ℕ) : Char := Char.ofNat (48 + n)

/-- Fuelled decimal rendering of a natural number (least significant digit
produced last); models the `%d` conversion of a nonnegative value. -/
def natCharsAux : ℕ → ℕ → List Char
  | 0, _ => []
  | fuel + 1, n => if n < 10 then [digitChar n] else natCharsAux fuel (n / 10) ++ [digitChar (n % 10)]

/-- Decimal rendering of a natural number, models `'%d' % n` for `n ≥ 0`. -/
def natChars (n : ℕ) : List Char := natCharsAux (n + 1) n

/-- All values found for the pattern `SRS Marker: (\\d+)` in a character
list, in order of their starting position.  This models
`re_marker.findall(text)`: the pattern has no self-overlap and its digit
group cannot contain the pattern start `S`, so scanning every position
yields exactly the non-overlapping matches `findall` returns. -/
def scanMarkers : List Char → List ℕ
  | [] => []
  | c :: cs =>
    if listStarts markerPat (c :: cs) = true ∧ ((c :: cs).drop markerPat.length).takeWhile Char.isDigit ≠ [] then
      digitsVal (((c :: cs).drop markerPat.length).takeWhile Char.isDigit) :: scanMarkers cs
    else scanMarkers cs

/-- Models `SubRedditStats._previous_max`: the last `SRS Marker` match of
the text converted with `float`, and `none` for the `IndexError` path that
aborts the program (`sys.exit(1)`). -/
def previous_max (selftext : String) : Option ℚ :=
  ((scanMarkers selftext.data).getLast?).map fun n => (n : ℚ)

/-- Models `post_footer % (prev, max_date)`:  the fixed generated-with line,
the optional back-link text `prev`, and the embedded marker `SRS Marker: %d`
where `%d` truncates the floating-point `max_date` to an integer. -/
def post_footer (prev : String) (max_date : ℚ) : String :=
  ">Generated with [BBoe]\x27s [Subreddit Stats](https://github.com/bboe/subreddit_stats)  \n"
    ++ prev ++ "SRS Marker: " ++ String.mk (natChars (Int.toNat ⌊max_date⌋))

/-- The fields of a praw `Submission` object that `subreddit_stats.py`
reads.  `authorStr` is `str(submission.author)` (so `"None"` for deleted
accounts), `score` is the API's pre-computed score field, `ups`/`downs`
are the raw vote counts. -/
structure Submission where
  created_utc : ℚ
  authorStr : String
  title : String
  selftext : String
  permalink : String
  is_self : Bool
  score : ℤ
  ups : ℕ
  downs : ℕ
deriving DecidableEq, Repr

/-- The fields of a praw `Comment` object that the program reads. -/
structure RComment where
  authorStr : String
  ups : ℕ
  downs : ℕ
deriving DecidableEq, Repr

/-- Net score of a comment, `lambda x: x.ups - x.downs` in
`top_commenters` and `top_comments`. -/
def commentScore (c : RComment) : ℤ := (c.ups : ℤ) - (c.downs : ℤ)

/-- One `'__%s__|%d|%s|%d|%s\n'` row of the statistics table. -/
def statsRow (label : String) (a : ℕ) (pa : String) (b : ℕ) (pb : String) : String :=
  "__" ++ label ++ "__|" ++ toString a ++ "|" ++ pa ++ "|" ++ toString b ++ "|" ++ pb ++ "\n"

/-- Models `SubRedditStats.basic_stats`.  The percentages
`sub_ups * 100 / (sub_ups + sub_downs)` and
`comm_ups * 100 / (comm_ups + comm_downs)` are computed with integer
division and are NOT guarded: a zero denominator raises
`ZeroDivisionError` in the source, modelled here as `none`. -/
def basic_stats (submissions : List Submission) (comments : List RComment)
    (submitters : List (String × List Submission))
    (commenters : List (String × List RComment)) : Option String :=
  let sub_ups := (submissions.map (·.ups)).sum
  let sub_downs := (submissions.map (·.downs)).sum
  let comm_ups := (comments.map (·.ups)).sum
  let comm_downs := (comments.map (·.downs)).sum
  if sub_ups + sub_downs = 0 ∨ comm_ups + comm_downs = 0 then
    none
  else
    let sub_up_perc := sub_ups * 100 / (sub_ups + sub_downs)
    let comm_up_perc := comm_ups * 100 / (comm_ups + comm_downs)
    some ("||Submissions|%|Comments|%|\n:-:|--:|--:|--:|--:\n"
      ++ statsRow "Total" submissions.length "" comments.length ""
      ++ statsRow "Unique Redditors" submitters.length "" commenters.length ""
      ++ statsRow "Upvotes" sub_ups (toString sub_up_perc ++ "%")
          comm_ups (toString comm_up_perc ++ "%")
      ++ statsRow "Downvotes" sub_downs (toString (100 - sub_up_perc) ++ "%")
          comm_downs (toString (100 - comm_up_perc) ++ "%")
      ++ "\n")

/-- One state of the `publish_results` shrink loop, which repeatedly
renders the body at the current `num_submissions` counter and then
decrements it, while
`body == '' or len(body) > MAX_BODY_SIZE and num_submissions > 2`.
Here `render k` stands for
`basic + top_submitters(submitters, k) + t_commenters + t_submissions + t_comments + footer`.
The `while True`-style loop is given explicit fuel; in the program the
rendered body always contains the nonempty footer, so the empty-body
disjunct holds only on the first pass and the loop performs at most nine
iterations, far below the fuel supplied by `runShrink`. -/
def shrinkLoop (render : ℕ → String) : ℕ → ℕ → String → String × ℕ
  | 0, n, body => (body, n)
  | fuel + 1, n, body =>
    if body = "" ∨ (MAX_BODY_SIZE < body.length ∧ 2 < n) then
      shrinkLoop render fuel (n - 1) (render n)
    else (body, n)

/-- The loop entered with `body = ''` and `num_submissions = 10`. -/
def runShrink (render : ℕ → String) : String × ℕ := shrinkLoop render 20 10 ""

/-- Outcome of the tail of `publish_results` (lines 338-361): whether the
submit call succeeded, whether it was attempted at all, and whether the
title and body were printed at the end. -/
structure PublishResult where
  submitted : Bool
  attempted : Bool
  printedReport : Bool
deriving DecidableEq, Repr

/-- Models Python's `str.strip()`: whitespace removed from both ends. -/
def pyStrip (s : String) : String :=
  String.mk (((s.data.dropWhile Char.isWhitespace).reverse.dropWhile Char.isWhitespace).reverse)

/-- Models Python's `str.lower()` (ASCII case folding suffices for the
`y`/`yes` comparison performed by the program). -/
def pyLower (s : String) : String := String.mk (s.data.map Char.toLower)

/-- Models `publish_results` after the shrink loop: oversize bodies force
`debug = True`; in non-debug mode a confirmation answer other than
`y`/`yes` (stripped, lowercased) aborts; a failed submit falls through to
printing; only a successful submit skips the final
`print(title); print(body)`. -/
def publishAfterLoop (body : String) (debug : Bool) (answer : String)
    (submitSucceeds : Bool) : PublishResult :=
  let debug := if MAX_BODY_SIZE < body.length then true else debug
  if debug = false then
    if pyLower (pyStrip answer) = "y" ∨ pyLower (pyStrip answer) = "yes" then
      if submitSucceeds then ⟨true, true, false⟩
      else ⟨false, true, true⟩
    else ⟨false, false, true⟩
  else ⟨false, false, true⟩

/-- The whole `publish_results` decision pipeline: shrink, then gate. -/
def publish_results (render : ℕ → String) (debug : Bool) (answer : String)
    (submitSucceeds : Bool) : PublishResult :=
  publishAfterLoop (runShrink render).1 debug answer submitSucceeds

/-- Concrete family of renderings that always exceed the byte budget, with
pairwise different lengths so distinct `k` give distinct bodies. -/
def demoRender (k : ℕ) : String := String.mk (List.replicate (MAX_BODY_SIZE + 1 + k) 'a')

/-- The mutable bounds and previous-report attributes of `SubRedditStats`. -/
structure SRSState where
  min_date : ℚ
  max_date : ℚ
  prev_srs : Option String
deriving DecidableEq, Repr

/-- Models `prev_stat`: extract the marker of the explicitly supplied
previous report and make it the new `min_date`; a missing marker aborts
the run (`sys.exit(1)` inside `_previous_max`). -/
def prev_stat (st : SRSState) (selftext : String) (prev_url : String) : Except Unit SRSState :=
  match previous_max selftext with
  | none => .error ()
  | some m => .ok { st with min_date := m, prev_srs := some prev_url }

/-- Models the first statement of `fetch_recent_submissions`:
`if max_duration: self.min_date = self.max_date - DAYS_IN_SECONDS * max_duration`. -/
def set_duration_bound (st : SRSState) (max_duration : ℕ) : SRSState :=
  if max_duration ≠ 0 then
    { st with min_date := st.max_date - (DAYS_IN_SECONDS : ℚ) * (max_duration : ℚ) }
  else st

/-- The report-title test `submission.title.startswith(self.post_prefix)`. -/
def postPrefixStr : String := "Subreddit Stats:"

/-- Models the listing loop of `fetch_recent_submissions` (lines 127-145):
skip too-recent posts, break at the first post at or below `min_date`,
absorb a previous report of this system's own account (raising `min_date`
to its marker when no explicit previous report was supplied; a marker-less
candidate aborts the run), drop self posts when requested, and append
everything else in listing order.  State threaded: `min_date`, `prev_srs`. -/
def fetch_scan (user : String) (since_last exclude_self : Bool) (max_date : ℚ) :
    ℚ → Option String → List Submission → Except Unit (ℚ × Option String × List Submission)
  | min_date, prev, [] => .ok (min_date, prev, [])
  | min_date, prev, s :: rest =>
    if max_date < s.created_utc then
      fetch_scan user since_last exclude_self max_date min_date prev rest
    else if s.created_utc ≤ min_date then
      .ok (min_date, prev, [])
    else if since_last = true ∧ s.authorStr = user ∧ strStarts postPrefixStr s.title = true then
      match prev with
      | none =>
        match previous_max s.selftext with
        | none => .error ()
        | some m =>
          fetch_scan user since_last exclude_self max_date (max min_date m) (some s.permalink) rest
      | some p => fetch_scan user since_last exclude_self max_date min_date (some p) rest
    else if exclude_self = true ∧ s.is_self = true then
      fetch_scan user since_last exclude_self max_date min_date prev rest
    else
      match fetch_scan user since_last exclude_self max_date min_date prev rest with
      | .error e => .error e
      | .ok (m, p, subs) => .ok (m, p, s :: subs)

/-- Stable descending insertion: `a` goes before the first element it
compares greater-or-equal to, so earlier elements win ties, exactly as
Python's stable `sorted(..., reverse=True)` orders equal keys. -/
def insertDesc {α : Type} (ge : α → α → Bool) (a : α) : List α → List α
  | [] => [a]
  | b :: l => if ge a b then a :: b :: l else b :: insertDesc ge a l

/-- Stable descending sort; models `sorted(xs, reverse=True, key=k)` with
`ge a b` standing for `k(a) ≥ k(b)`. -/
def sortDesc {α : Type} (ge : α → α → Bool) : List α → List α
  | [] => []
  | a :: l => insertDesc ge a (sortDesc ge l)

/-- Descending lexicographic comparison of `(total score, item count)`
keys: `k1` may precede `k2` iff its total is larger, or totals tie and its
count is at least as large. -/
def pairGe (k1 k2 : ℤ × ℕ) : Bool :=
  decide (k2.1 < k1.1 ∨ (k1.1 = k2.1 ∧ k2.2 ≤ k1.2))

/-- The ranking key of an author group:
`(sum(score_fn(item) for item in group), count(group))`. -/
def groupKey {α : Type} (score : α → ℤ) (g : String × List α) : ℤ × ℕ :=
  ((g.2.map score).sum, g.2.length)

/-- The ordered top-`num` author groups shared by `top_submitters`
(lines 233-235, with `score_fn = submission.score`) and `top_commenters`
(lines 262-264, with `score_fn = ups - downs`): sort the author-to-items
mapping descending by `groupKey` and keep the first `num`. -/
def top_authors {α : Type} (score : α → ℤ) (groups : List (String × List α)) (num : ℕ) :
    List (String × List α) :=
  (sortDesc (fun a b => pairGe (groupKey score a) (groupKey score b)) groups).take num

/-- The ranked list of `top_submissions` (lines 278-279):
`sorted(self.submissions, reverse=True, key=lambda x: x.score)[:num]` —
the raw pre-computed `score` field. -/
def top_submissions_list (subs : List Submission) (num : ℕ) : List Submission :=
  (sortDesc (fun a b => decide (b.score ≤ a.score)) subs).take num

/-- The ranked list of `top_comments` (lines 300-301):
`sorted(self.comments, reverse=True, key=score)[:num]` with
`score = lambda x: x.ups - x.downs`. -/
def top_comments_list (cs : List RComment) (num : ℕ) : List RComment :=
  (sortDesc (fun a b => decide (commentScore b ≤ commentScore a)) cs).take num

/-- One error inside a praw `ExceptionList`. -/
inductive BatchErr : Type
  | rate (sleep_time : ℕ)
  | other (msg : String)
deriving DecidableEq, Repr

/-- The result of one invocation of the wrapped callable: success, a
`RateLimitExceeded` carrying its suggested wait, an `ExceptionList`, or
any other exception. -/
inductive CallResult (α : Type) : Type
  | ok (v : α)
  | rateLimit (sleep_time : ℕ)
  | exceptionList (errs : List BatchErr)
  | other (msg : String)
deriving DecidableEq, Repr

/-- What `_submit` ultimately does: return a value, re-raise an exception,
or (model artefact) run out of fuel.  The list records every sleep
performed, in order. -/
inductive SubmitOutcome (α : Type) : Type
  | success (v : α) (sleeps : List ℕ)
  | raisedOther (msg : String) (sleeps : List ℕ)
  | raisedBatch (errs : List BatchErr) (sleeps : List ℕ)
  | fuelOut (sleeps : List ℕ)
deriving DecidableEq, Repr

/-- The sleep duration of the first rate-limit error of an exception
list, mirroring the `for ... break / else raise` scan in `_submit`. -/
def firstRateSleep : List BatchErr → Option ℕ
  | [] => none
  | .rate t :: _ => some t
  | .other _ :: rest => firstRateSleep rest

/-- Models `_submit`'s `while True` loop: attempt `i` of the call either
returns, sleeps and retries on `RateLimitExceeded`, scans an
`ExceptionList` for a rate-limit error (sleeping that error's duration and
retrying if found, re-raising the whole list otherwise), or re-raises any
other exception immediately.  `fuel` bounds the unbounded source loop. -/
def submitLoop {α : Type} (call : ℕ → CallResult α) : ℕ → ℕ → List ℕ → SubmitOutcome α
  | 0, _, sleeps => .fuelOut sleeps
  | fuel + 1, i, sleeps =>
    match call i with
    | .ok v => .success v sleeps
    | .rateLimit t => submitLoop call fuel (i + 1) (sleeps ++ [t])
    | .exceptionList errs =>
      match firstRateSleep errs with
      | some t => submitLoop call fuel (i + 1) (sleeps ++ [t])
      | none => .raisedBatch errs sleeps
    | .other e => .raisedOther e sleeps

/-- A sample submission with the given creation time, author, title, score
and vote counts. -/
def mkSub (created : ℚ) (author : String) (title : String) (score : ℤ) (ups downs : ℕ) :
    Submission :=
  ⟨created, author, title, "", "/r/x/1", false, score, ups, downs⟩

/-- A sample comment. -/
def mkCom (author : String) (ups downs : ℕ) : RComment := ⟨author, ups, downs⟩

/-- The spec's ranking example: submitter totals (A,100,3), (B,100,5),
(C,90,10), with items carrying their own scores. -/
def exampleGroups : List (String × List ℤ) :=
  [("A", [50, 30, 20]), ("B", [20, 20, 20, 20, 20]), ("C", List.replicate 10 9)]

/-- A wrapped call that rate-limits once with suggested wait 2 and then
succeeds with 42. -/
def demoCall : ℕ → CallResult ℕ := fun i => if i = 0 then .rateLimit 2 else .ok 42

theorem listStarts_iff (p : List Char) : ∀ l, listStarts p l = true ↔ ∃ t, l = p ++ t := by
  induction p with
  | nil => intro l; simp [listStarts]
  | cons a ps ih =>
    intro l
    cases l with
    | nil => simp [listStarts]
    | cons c cs =>
      simp only [listStarts, Bool.and_eq_true, beq_iff_eq, ih, List.cons_append]
      constructor
      · rintro ⟨rfl, t, rfl⟩; exact ⟨t, rfl⟩
      · rintro ⟨t, h⟩
        injection h with h1 h2
        exact ⟨h1.symm, t, h2⟩

theorem listStarts_append (p t : List Char) : listStarts p (p ++ t) = true :=
  (listStarts_iff p (p ++ t)).mpr ⟨t, rfl⟩

theorem markerPat_eq_data : "SRS Marker: ".data = markerPat := rfl

theorem digitsVal_append_singleton (xs : List Char) (c : Char) :
    digitsVal (xs ++ [c]) = digitsVal xs * 10 + (c.toNat - 48) := by
  simp [digitsVal, List.foldl_append]

theorem digitChar_toNat {n : ℕ} (h : n < 10) : (digitChar n).toNat = 48 + n := by
  interval_cases n <;> decide

theorem digitChar_isDigit {n : ℕ} (h : n < 10) : (digitChar n).isDigit = true := by
  interval_cases n <;> decide

theorem digitsVal_natCharsAux : ∀ fuel n, n < fuel → digitsVal (natCharsAux fuel n) = n := by
  intro fuel
  induction fuel with
  | zero => intro n h; omega
  | succ f ih =>
    intro n h
    by_cases h10 : n < 10
    · simp only [natCharsAux, if_pos h10]
      have : digitsVal [digitChar n] = (digitChar n).toNat - 48 := by
        simp [digitsVal]
      rw [this, digitChar_toNat h10]
      omega
    · simp only [natCharsAux, if_neg h10]
      have hlt : n / 10 < f := by
        have := Nat.div_lt_self (by omega : 0 < n) (by omega : 1 < 10)
        omega
      rw [digitsVal_append_singleton, ih _ hlt, digitChar_toNat (Nat.mod_lt _ (by omega))]
      omega

theorem digitsVal_natChars (n : ℕ) : digitsVal (natChars n) = n :=
  digitsVal_natCharsAux (n + 1) n (Nat.lt_succ_self n)

theorem natCharsAux_digits : ∀ fuel n, ∀ c ∈ natCharsAux fuel n, c.isDigit = true := by
  intro fuel
  induction fuel with
  | zero => intro n c hc; simp [natCharsAux] at hc
  | succ f ih =>
    intro n c hc
    by_cases h10 : n < 10
    · simp only [natCharsAux, if_pos h10, List.mem_singleton] at hc
      exact hc ▸ digitChar_isDigit h10
    · simp only [natCharsAux, if_neg h10, List.mem_append, List.mem_singleton] at hc
      rcases hc with hc | hc
      · exact ih _ _ hc
      · exact hc ▸ digitChar_isDigit (Nat.mod_lt _ (by omega))

theorem natChars_digits (n : ℕ) : ∀ c ∈ natChars n, c.isDigit = true :=
  natCharsAux_digits (n + 1) n

theorem natChars_ne_nil (n : ℕ) : natChars n ≠ [] := by
  unfold natChars natCharsAux
  by_cases h10 : n < 10 <;> simp [h10]

theorem markerPat_not_digit : ∀ c ∈ markerPat, c.isDigit = false := by decide

/-- The marker pattern cannot match starting inside its own tail: fewer than
`markerPat.length` characters followed by pure digits never begin with the
(entirely digit-free) pattern. -/
theorem listStarts_markerPat_short (v ds : List Char)
    (hv : v.length < markerPat.length) (hds : ∀ c ∈ ds, c.isDigit = true) :
    listStarts markerPat (v ++ ds) = false := by
  by_contra h
  have h' : listStarts markerPat (v ++ ds) = true := by
    cases hb : listStarts markerPat (v ++ ds) with
    | false => exact absurd hb h
    | true => rfl
  obtain ⟨t, ht⟩ := (listStarts_iff _ _).mp h'
  have hlen : v.length + ds.length = markerPat.length + t.length := by
    have := congrArg List.length ht
    simpa using this
  have hds_len : 0 < ds.length := by omega
  obtain ⟨d0, ds', rfl⟩ : ∃ d0 ds', ds = d0 :: ds' := by
    cases ds with
    | nil => simp at hds_len
    | cons d0 ds' => exact ⟨d0, ds', rfl⟩
  have e3 : (markerPat ++ t).take (v.length + 1) = (v ++ d0 :: ds').take (v.length + 1) := by
    rw [ht]
  have e4 : (markerPat ++ t).take (v.length + 1) = markerPat.take (v.length + 1) :=
    List.take_append_of_le_length (by omega)
  have e5 : (v ++ d0 :: ds').take (v.length + 1) = v ++ [d0] := by
    rw [List.take_append_eq_append_take]
    congr 1
    · exact List.take_of_length_le (by omega)
    · simp [show v.length + 1 - v.length = 1 by omega]
  have e6 : markerPat.take (v.length + 1) = v ++ [d0] := by rw [← e4, e3, e5]
  have hmem : d0 ∈ markerPat :=
    List.take_subset (v.length + 1) markerPat (e6 ▸ (by simp : d0 ∈ v ++ [d0]))
  have hd1 : d0.isDigit = true := hds d0 (by simp)
  have hd2 : d0.isDigit = false := markerPat_not_digit d0 hmem
  rw [hd1] at hd2
  exact Bool.noConfusion hd2

/-- A pure-digit text contains no marker match at all. -/
theorem scanMarkers_digits_nil : ∀ ds, (∀ c ∈ ds, c.isDigit = true) → scanMarkers ds = [] := by
  intro ds
  induction ds with
  | nil => intro _; rfl
  | cons c cs ih =>
    intro h
    have hfalse : listStarts markerPat (c :: cs) = false :=
      listStarts_markerPat_short [] (c :: cs) (by decide) h
    rw [scanMarkers, if_neg]
    · exact ih fun a ha => h a (List.mem_cons_of_mem _ ha)
    · rintro ⟨h1, _⟩
      rw [hfalse] at h1
      exact Bool.noConfusion h1

/-- No marker match survives in a proper tail of the pattern followed by
digits. -/
theorem scanMarkers_short_nil : ∀ v ds, v.length < markerPat.length →
    (∀ c ∈ ds, c.isDigit = true) → scanMarkers (v ++ ds) = [] := by
  intro v
  induction v with
  | nil => intro ds _ hds; exact scanMarkers_digits_nil ds hds
  | cons a v' ih =>
    intro ds hv hds
    have hfalse : listStarts markerPat ((a :: v') ++ ds) = false :=
      listStarts_markerPat_short (a :: v') ds hv hds
    rw [List.cons_append, scanMarkers, if_neg]
    · exact ih ds (by simp at hv ⊢; omega) hds
    · rintro ⟨h1, _⟩
      rw [List.cons_append] at hfalse
      rw [hfalse] at h1
      exact Bool.noConfusion h1

theorem takeWhile_eq_self_of_all {p : Char → Bool} :
    ∀ l : List Char, (∀ c ∈ l, p c = true) → l.takeWhile p = l := by
  intro l
  induction l with
  | nil => intro _; rfl
  | cons c cs ih =>
    intro h
    rw [List.takeWhile_cons, if_pos (h c (List.mem_cons_self c cs))]
    rw [ih fun a ha => h a (List.mem_cons_of_mem _ ha)]

theorem getLast?_cons_of_some {α : Type} {l : List α} {v : α} (a : α)
    (h : l.getLast? = some v) : (a :: l).getLast? = some v := by
  cases l with
  | nil => simp at h
  | cons b bs => rw [List.getLast?_cons_cons]; exact h

/-- Scanning any text that ends with the pattern followed by a nonempty
digit run yields that run's value as the last match. -/
theorem scanMarkers_getLast (xs ds : List Char) (hne : ds ≠ [])
    (hds : ∀ c ∈ ds, c.isDigit = true) :
    (scanMarkers (xs ++ markerPat ++ ds)).getLast? = some (digitsVal ds) := by
  induction xs with
  | nil =>
    have htake : (((markerPat ++ ds)).drop markerPat.length).takeWhile Char.isDigit = ds := by
      rw [List.drop_left]
      exact takeWhile_eq_self_of_all ds hds
    have hstart : listStarts markerPat (markerPat ++ ds) = true := listStarts_append _ _
    show (scanMarkers (markerPat ++ ds)).getLast? = some (digitsVal ds)
    rw [show markerPat ++ ds = 'S' :: (markerPat.drop 1 ++ ds) from rfl] at htake hstart ⊢
    rw [scanMarkers, if_pos ⟨hstart, by rw [htake]; exact hne⟩]
    rw [htake]
    rw [scanMarkers_short_nil (markerPat.drop 1) ds (by decide) hds]
    rfl
  | cons a xs' ih =>
    show (scanMarkers (a :: (xs' ++ markerPat ++ ds))).getLast? = some (digitsVal ds)
    rw [scanMarkers]
    by_cases hc : listStarts markerPat (a :: (xs' ++ markerPat ++ ds)) = true ∧
        ((a :: (xs' ++ markerPat ++ ds)).drop markerPat.length).takeWhile Char.isDigit ≠ []
    · rw [if_pos hc]
      exact getLast?_cons_of_some _ ih
    · rw [if_neg hc]
      exact ih

/-- Round-trip core fact: extracting the marker from any text that ends in
`post_footer prev q` recovers the truncated timestamp `⌊q⌋`. -/
theorem previous_max_append_footer (P prev : String) (q : ℚ) (hq : 0 ≤ q) :
    previous_max (P ++ post_footer prev q) = some ((⌊q⌋ : ℤ) : ℚ) := by
  have hdata : (P ++ post_footer prev q).data =
      (P.data ++ ">Generated with [BBoe]\x27s [Subreddit Stats](https://github.com/bboe/subreddit_stats)  \n".data ++ prev.data)
        ++ markerPat ++ natChars (Int.toNat ⌊q⌋) := by
    simp only [post_footer, String.data_append, markerPat_eq_data]
    simp only [List.append_assoc]
    rfl
  rw [previous_max, hdata,
    scanMarkers_getLast _ _ (natChars_ne_nil _) (natChars_digits _),
    digitsVal_natChars]
  show some ((Int.toNat ⌊q⌋ : ℕ) : ℚ) = some ((⌊q⌋ : ℤ) : ℚ)
  congr 1
  exact_mod_cast congrArg (Int.cast : ℤ → ℚ) (Int.toNat_of_nonneg (Int.floor_nonneg.mpr hq))

/-- Helper unfolding of one shrink-loop step. -/
theorem shrinkLoop_step (render : ℕ → String) (f n : ℕ) (body : String) :
    shrinkLoop render (f + 1) n body =
      if body = "" ∨ (MAX_BODY_SIZE < body.length ∧ 2 < n) then
        shrinkLoop render f (n - 1) (render n)
      else (body, n) := rfl

/-- When every rendering from `k = 10` down to `k = 3` exceeds the budget,
the loop stops after rendering at `k = 3` with `num_submissions = 2`. -/
theorem runShrink_unattainable (render : ℕ → String)
    (h : ∀ k, 3 ≤ k → k ≤ 10 → MAX_BODY_SIZE < (render k).length) :
    runShrink render = (render 3, 2) := by
  have hne : ∀ k, 3 ≤ k → k ≤ 10 → render k ≠ "" := by
    intro k h3 h10 habs
    have := h k h3 h10
    rw [habs] at this
    simp [MAX_BODY_SIZE] at this
  have step : ∀ f k, 3 ≤ k → k ≤ 10 →
      shrinkLoop render (f + 1) (k - 1) (render k) =
        if MAX_BODY_SIZE < (render k).length ∧ 2 < k - 1 then
          shrinkLoop render f (k - 2) (render (k - 1))
        else (render k, k - 1) := by
    intro f k h3 h10
    rw [shrinkLoop_step]
    have hsub : k - 1 - 1 = k - 2 := by omega
    by_cases hc : MAX_BODY_SIZE < (render k).length ∧ 2 < k - 1
    · rw [if_pos (Or.inr hc), if_pos hc, hsub]
    · rw [if_neg ?_, if_neg hc]
      rintro (he | hc')
      · exact hne k h3 h10 he
      · exact hc hc'
  show shrinkLoop render (19 + 1) 10 "" = (render 3, 2)
  rw [shrinkLoop_step, if_pos (Or.inl rfl)]
  show shrinkLoop render (18 + 1) (10 - 1) (render 10) = _
  rw [step 18 10 (by omega) (by omega), if_pos ⟨h 10 (by omega) (by omega), by omega⟩]
  show shrinkLoop render (17 + 1) (9 - 1) (render 9) = _
  rw [step 17 9 (by omega) (by omega), if_pos ⟨h 9 (by omega) (by omega), by omega⟩]
  show shrinkLoop render (16 + 1) (8 - 1) (render 8) = _
  rw [step 16 8 (by omega) (by omega), if_pos ⟨h 8 (by omega) (by omega), by omega⟩]
  show shrinkLoop render (15 + 1) (7 - 1) (render 7) = _
  rw [step 15 7 (by omega) (by omega), if_pos ⟨h 7 (by omega) (by omega), by omega⟩]
  show shrinkLoop render (14 + 1) (6 - 1) (render 6) = _
  rw [step 14 6 (by omega) (by omega), if_pos ⟨h 6 (by omega) (by omega), by omega⟩]
  show shrinkLoop render (13 + 1) (5 - 1) (render 5) = _
  rw [step 13 5 (by omega) (by omega), if_pos ⟨h 5 (by omega) (by omega), by omega⟩]
  show shrinkLoop render (12 + 1) (4 - 1) (render 4) = _
  rw [step 12 4 (by omega) (by omega), if_pos ⟨h 4 (by omega) (by omega), by omega⟩]
  show shrinkLoop render (11 + 1) (3 - 1) (render 3) = _
  rw [step 11 3 (by omega) (by omega), if_neg (by omega)]

theorem demoRender_length (k : ℕ) : (demoRender k).length = MAX_BODY_SIZE + 1 + k := by
  show (List.replicate (MAX_BODY_SIZE + 1 + k) 'a').length = _
  simp

theorem fetch_scan_nil (user : String) (sl ex : Bool) (maxd mind : ℚ) (prev : Option String) :
    fetch_scan user sl ex maxd mind prev [] = .ok (mind, prev, []) := rfl

theorem fetch_scan_cons (user : String) (sl ex : Bool) (maxd mind : ℚ) (prev : Option String)
    (s : Submission) (rest : List Submission) :
    fetch_scan user sl ex maxd mind prev (s :: rest) =
      (if maxd < s.created_utc then
        fetch_scan user sl ex maxd mind prev rest
      else if s.created_utc ≤ mind then
        .ok (mind, prev, [])
      else if sl = true ∧ s.authorStr = user ∧ strStarts postPrefixStr s.title = true then
        match prev with
        | none =>
          match previous_max s.selftext with
          | none => .error ()
          | some m => fetch_scan user sl ex maxd (max mind m) (some s.permalink) rest
        | some p => fetch_scan user sl ex maxd mind (some p) rest
      else if ex = true ∧ s.is_self = true then
        fetch_scan user sl ex maxd mind prev rest
      else
        match fetch_scan user sl ex maxd mind prev rest with
        | .error e => .error e
        | .ok (m, p, subs) => .ok (m, p, s :: subs)) := rfl

/-- Every submission retained by the scan lies strictly above the
`min_date` the scan started from and at or below `max_date`. -/
theorem fetch_scan_mem_bounds (user : String) (sl ex : Bool) (maxd : ℚ) :
    ∀ (listing : List Submission) (mind : ℚ) (prev : Option String)
      (m : ℚ) (p : Option String) (subs : List Submission),
    fetch_scan user sl ex maxd mind prev listing = .ok (m, p, subs) →
    ∀ s ∈ subs, mind < s.created_utc ∧ s.created_utc ≤ maxd := by
  intro listing
  induction listing with
  | nil =>
    intro mind prev m p subs h s hs
    rw [fetch_scan_nil] at h
    cases h
    simp at hs
  | cons a rest ih =>
    intro mind prev m p subs h s hs
    rw [fetch_scan_cons] at h
    split_ifs at h with h1 h2 h3 h4
    · exact ih mind prev m p subs h s hs
    · cases h
      simp at hs
    · cases prev with
      | none =>
        cases hpm : previous_max a.selftext with
        | none => rw [hpm] at h; cases h
        | some mk =>
          rw [hpm] at h
          have := ih (max mind mk) (some a.permalink) m p subs h s hs
          exact ⟨lt_of_le_of_lt (le_max_left _ _) this.1, this.2⟩
      | some pl => exact ih mind (some pl) m p subs h s hs
    · exact ih mind prev m p subs h s hs
    · cases hrec : fetch_scan user sl ex maxd mind prev rest with
      | error e => rw [hrec] at h; cases h
      | ok triple =>
        obtain ⟨m', p', subs'⟩ := triple
        rw [hrec] at h
        cases h
        rcases List.mem_cons.mp hs with rfl | hs'
        · exact ⟨lt_of_not_le h2, le_of_not_lt h1⟩
        · exact ih mind prev m p subs' hrec s hs'

/-- Once a post at or below the starting `min_date` is reached, nothing
after it in the listing influences the scan: the evolving `min_date` only
grows, so the break fires there at the latest. -/
theorem fetch_scan_stop (user : String) (sl ex : Bool) (maxd : ℚ) (b : Submission)
    (ys ys' : List Submission) (hbmax : b.created_utc ≤ maxd) :
    ∀ (xs : List Submission) (mind : ℚ) (prev : Option String),
    b.created_utc ≤ mind →
    fetch_scan user sl ex maxd mind prev (xs ++ b :: ys) =
      fetch_scan user sl ex maxd mind prev (xs ++ b :: ys') := by
  intro xs
  induction xs with
  | nil =>
    intro mind prev hb
    simp only [List.nil_append]
    rw [fetch_scan_cons, fetch_scan_cons, if_neg (not_lt.mpr hbmax), if_pos hb,
      if_neg (not_lt.mpr hbmax), if_pos hb]
  | cons a xs' ih =>
    intro mind prev hb
    simp only [List.cons_append]
    rw [fetch_scan_cons, fetch_scan_cons]
    split_ifs with h1 h2 h3 h4
    · exact ih mind prev hb
    · rfl
    · cases prev with
      | none =>
        cases hpm : previous_max a.selftext with
        | none => rfl
        | some mk => exact ih (max mind mk) (some a.permalink) (le_trans hb (le_max_left _ _))
      | some pl => exact ih mind (some pl) hb
    · exact ih mind prev hb
    · rw [ih mind prev hb]

theorem mem_insertDesc {α : Type} (ge : α → α → Bool) (a x : α) :
    ∀ l, x ∈ insertDesc ge a l ↔ x = a ∨ x ∈ l := by
  intro l
  induction l with
  | nil => simp [insertDesc]
  | cons b l' ih =>
    by_cases h : ge a b = true
    · simp only [insertDesc, if_pos h, List.mem_cons]
    · simp only [insertDesc, if_neg h, List.mem_cons, ih]
      tauto

theorem insertDesc_pairwise {α : Type} (ge : α → α → Bool)
    (htrans : ∀ a b c, ge a b = true → ge b c = true → ge a c = true)
    (htot : ∀ a b, ge a b = false → ge b a = true) (a : α) :
    ∀ l, l.Pairwise (fun x y => ge x y = true) →
      (insertDesc ge a l).Pairwise (fun x y => ge x y = true) := by
  intro l
  induction l with
  | nil => intro _; simp [insertDesc]
  | cons b l' ih =>
    intro hp
    rw [List.pairwise_cons] at hp
    by_cases h : ge a b = true
    · rw [insertDesc, if_pos h, List.pairwise_cons]
      refine ⟨?_, List.pairwise_cons.mpr hp⟩
      intro x hx
      rcases List.mem_cons.mp hx with rfl | hx'
      · exact h
      · exact htrans a b x h (hp.1 x hx')
    · rw [insertDesc, if_neg h, List.pairwise_cons]
      refine ⟨?_, ih hp.2⟩
      intro x hx
      rcases (mem_insertDesc ge a x l').mp hx with heq | hx'
      · rw [heq]; exact htot a b (Bool.eq_false_iff.mpr h)
      · exact hp.1 x hx'

theorem sortDesc_pairwise {α : Type} (ge : α → α → Bool)
    (htrans : ∀ a b c, ge a b = true → ge b c = true → ge a c = true)
    (htot : ∀ a b, ge a b = false → ge b a = true) :
    ∀ l : List α, (sortDesc ge l).Pairwise (fun x y => ge x y = true) := by
  intro l
  induction l with
  | nil => simp [sortDesc]
  | cons a l' ih => exact insertDesc_pairwise ge htrans htot a _ ih

theorem pairGe_trans (a b c : ℤ × ℕ) (h1 : pairGe a b = true) (h2 : pairGe b c = true) :
    pairGe a c = true := by
  simp only [pairGe, decide_eq_true_eq] at *
  rcases h1 with h1 | ⟨h1e, h1c⟩ <;> rcases h2 with h2 | ⟨h2e, h2c⟩
  · exact Or.inl (lt_trans h2 h1)
  · exact Or.inl (h2e ▸ h1)
  · exact Or.inl (h1e ▸ h2)
  · exact Or.inr ⟨h1e.trans h2e, le_trans h2c h1c⟩

theorem pairGe_total (a b : ℤ × ℕ) (h : pairGe a b = false) : pairGe b a = true := by
  simp only [pairGe, decide_eq_false_iff_not, decide_eq_true_eq, not_or, not_and, not_le] at *
  obtain ⟨h1, h2⟩ := h
  rcases lt_trichotomy a.1 b.1 with hlt | heq | hgt
  · exact Or.inl hlt
  · exact Or.inr ⟨heq.symm, le_of_lt (h2 heq)⟩
  · exact absurd hgt h1

theorem firstRateSleep_eq_none : ∀ errs : List BatchErr,
    (∀ t, BatchErr.rate t ∉ errs) → firstRateSleep errs = none := by
  intro errs
  induction errs with
  | nil => intro _; rfl
  | cons e rest ih =>
    intro h
    cases e with
    | rate t => exact absurd (List.mem_cons_self _ _) (h t)
    | other m =>
      rw [firstRateSleep]
      exact ih fun t ht => h t (List.mem_cons_of_mem _ ht)

theorem firstRateSleep_isSome : ∀ errs : List BatchErr,
    (∃ t, BatchErr.rate t ∈ errs) → ∃ t', firstRateSleep errs = some t' := by
  intro errs
  induction errs with
  | nil => rintro ⟨t, ht⟩; simp at ht
  | cons e rest ih =>
    rintro ⟨t, ht⟩
    cases e with
    | rate t' => exact ⟨t', rfl⟩
    | other m =>
      rcases List.mem_cons.mp ht with h | h
      · exact absurd h (by simp)
      · exact ih ⟨t, h⟩

/-- A run of `k` consecutive rate-limit responses followed by a success is
retried through: each suggested duration is slept once, in order, and the
final value is returned. -/
theorem submitLoop_rate_run {α : Type} (call : ℕ → CallResult α) (t : ℕ → ℕ) (v : α) :
    ∀ (k j : ℕ) (sleeps : List ℕ),
    (∀ i, i < k → call (j + i) = .rateLimit (t (j + i))) →
    call (j + k) = .ok v →
    submitLoop call (k + 1) j sleeps =
      .success v (sleeps ++ (List.range k).map fun i => t (j + i)) := by
  intro k
  induction k with
  | zero =>
    intro j sleeps _ hok
    rw [submitLoop]
    simp only [Nat.add_zero] at hok
    rw [hok]
    simp
  | succ k' ih =>
    intro j sleeps hrate hok
    have h0 : call j = .rateLimit (t j) := by
      have := hrate 0 (Nat.succ_pos k')
      simpa using this
    rw [submitLoop, h0]
    show submitLoop call (k' + 1) (j + 1) (sleeps ++ [t j]) =
      SubmitOutcome.success v (sleeps ++ List.map (fun i => t (j + i)) (List.range (k' + 1)))
    have h1 : ∀ i, i < k' → call ((j + 1) + i) = .rateLimit (t ((j + 1) + i)) := by
      intro i hi
      have := hrate (i + 1) (by omega)
      rwa [show j + (i + 1) = j + 1 + i by omega] at this
    have h2 : call ((j + 1) + k') = .ok v := by
      rwa [show j + 1 + k' = j + (k' + 1) by omega]
    rw [ih (j + 1) (sleeps ++ [t j]) h1 h2]
    congr 1
    rw [List.append_assoc]
    congr 1
    rw [List.range_succ_eq_map]
    simp only [List.map_cons, List.map_map, List.singleton_append, Nat.add_zero]
    congr 1
    apply List.map_congr_left
    intro i _
    simp only [Function.comp_apply]
    congr 1
    omega

/-- C1: the claim states that the basic-statistics percentage division is
guarded and a zero `ups + downs` total renders an all-zero section.  The
source computes `sub_ups * 100 / (sub_ups + sub_downs)` (and the comment
analogue) unguarded, so a zero total raises `ZeroDivisionError` (modelled
as `none`) — both for an empty collection and for a nonempty one whose
vote counts are all zero. -/
theorem C1_basic_stats_unguarded_division :
    basic_stats [] [] [] [] = none ∧
    basic_stats [mkSub 10 "alice" "t" 0 0 0] []
      [("alice", [mkSub 10 "alice" "t" 0 0 0])] [] = none :=
  ⟨rfl, rfl⟩

/-- C2 counterexample: with every rendering oversize, the final body held
by the loop is the `k = 3` rendering, not the `k = 2` one the claim
states. -/
theorem C2_counterexample : (runShrink demoRender).1 ≠ demoRender 2 := by
  rw [runShrink_unattainable demoRender fun k h3 h10 => by rw [demoRender_length]; omega]
  intro h
  have h2 := congrArg String.length h
  rw [demoRender_length, demoRender_length] at h2
  omega

/-- C2 (amended): the loop starts at `k = 10` and re-renders while the
body is oversize and the already-decremented counter exceeds 2; when the
budget is unattainable the final rendering is therefore produced with
`k = 3` — `k = 2` is never rendered — and the loop exits with the counter
at 2. -/
theorem C2_shrink_final_k (render : ℕ → String)
    (h : ∀ k, 3 ≤ k → k ≤ 10 → MAX_BODY_SIZE < (render k).length) :
    runShrink render = (render 3, 2) :=
  runShrink_unattainable render h

/-- C2 witness: the amended theorem applied to the concrete oversize
rendering family. -/
theorem C2_witness : runShrink demoRender = (demoRender 3, 2) :=
  C2_shrink_final_k demoRender fun k h3 h10 => by rw [demoRender_length]; omega

/-- C3: a body still exceeding `MAX_BODY_SIZE` after the shrink loop forces
debug mode — the submit call is unreachable and only the title and body
are printed, whatever the flags, the prompt answer, or the submit
outcome. -/
theorem C3_oversize_never_submitted (render : ℕ → String) (debug : Bool)
    (answer : String) (submitSucceeds : Bool)
    (h : MAX_BODY_SIZE < (runShrink render).1.length) :
    publish_results render debug answer submitSucceeds = ⟨false, false, true⟩ := by
  simp [publish_results, publishAfterLoop, h]

/-- C3 witness: the oversize rendering family is displayed, not submitted,
even with an affirmative answer and a submit that would succeed. -/
theorem C3_witness :
    MAX_BODY_SIZE < (runShrink demoRender).1.length ∧
      publish_results demoRender false "y" true = ⟨false, false, true⟩ := by
  have hlen : MAX_BODY_SIZE < (runShrink demoRender).1.length := by
    rw [runShrink_unattainable demoRender fun k h3 h10 => by rw [demoRender_length]; omega]
    show MAX_BODY_SIZE < (demoRender 3).length
    rw [demoRender_length]
    omega
  exact ⟨hlen, C3_oversize_never_submitted demoRender false "y" true hlen⟩

/-- C4 counterexample: a report assembled with the non-integral
`high_bound = 100.5` embeds the truncated marker `100`, so re-scanning
yields `100`, not the value the report was assembled with. -/
theorem C4_counterexample :
    previous_max ("body" ++ post_footer "" (201 / 2 : ℚ)) = some 100 ∧
      (100 : ℚ) ≠ (201 / 2 : ℚ) := by
  constructor
  · rw [previous_max_append_footer "body" "" (201 / 2 : ℚ) (by norm_num)]
    norm_num
  · norm_num

/-- C4 (amended): the footer embeds the `%d`-truncation `⌊high_bound⌋` of
the run's `high_bound` as the marker, and re-scanning the assembled report
with `_previous_max` recovers exactly `⌊high_bound⌋` — the same value as
`high_bound` only when the timestamp is an integer. -/
theorem C4_marker_roundtrip_floor (P prev : String) (q : ℚ) (hq : 0 ≤ q) :
    previous_max (P ++ post_footer prev q) = some ((⌊q⌋ : ℤ) : ℚ) :=
  previous_max_append_footer P prev q hq

/-- C4 witness: round trip at the integral timestamp 42. -/
theorem C4_witness : previous_max ("Stats body\n" ++ post_footer "" (42 : ℚ)) = some 42 := by
  rw [C4_marker_roundtrip_floor "Stats body\n" "" (42 : ℚ) (by norm_num)]
  norm_num

/-- C5 counterexample: `max_date = 100`, an explicitly supplied previous
report with marker 50, and a one-day duration resolve `min_date` to
`100 − 86400`, whereas the claim's `max(duration bound, marker)` is 50. -/
theorem C5_counterexample :
    (prev_stat ⟨0, 100, none⟩ "SRS Marker: 50" "u").map (fun s2 => set_duration_bound s2 1) =
      .ok ⟨(100 : ℚ) - 86400, 100, some "u"⟩ ∧
    ((100 : ℚ) - 86400) ≠ max ((100 : ℚ) - 86400) 50 := by
  constructor
  · have h1 : previous_max "SRS Marker: 50" = some 50 := by
      have h2 := scanMarkers_getLast [] ['5', '0'] (by decide) (by decide)
      rw [previous_max, show "SRS Marker: 50".data = ([] : List Char) ++ markerPat ++ ['5', '0'] from rfl, h2]
      rw [show digitsVal ['5', '0'] = 50 from by decide]
      simp
    rw [prev_stat, h1]
    simp only [Except.map, set_duration_bound]
    norm_num [DAYS_IN_SECONDS]
  · rw [max_eq_right (by norm_num : (100 : ℚ) - 86400 ≤ 50)]
    norm_num

/-- C5 (amended): when a previous report is explicitly supplied and a
positive duration is also given, `fetch_recent_submissions` overwrites the
marker-derived `min_date`: the resolved low bound is the duration bound
`max_date − DAYS_IN_SECONDS · d` alone, regardless of the marker value
(no `max` is taken on this path). -/
theorem C5_duration_overwrites_marker (st : SRSState) (text url : String) (m : ℚ) (d : ℕ)
    (hm : previous_max text = some m) (hd : 0 < d) :
    (prev_stat st text url).map (fun s2 => set_duration_bound s2 d) =
      .ok ⟨st.max_date - (DAYS_IN_SECONDS : ℚ) * (d : ℚ), st.max_date, some url⟩ := by
  rw [prev_stat, hm]
  simp only [Except.map, set_duration_bound]
  simp [Nat.pos_iff_ne_zero.mp hd]

/-- C5 witness: the amended theorem at the counterexample's inputs. -/
theorem C5_witness :
    (prev_stat ⟨0, 100, none⟩ "SRS Marker: 50" "u").map (fun s2 => set_duration_bound s2 1) =
      .ok ⟨(100 : ℚ) - (DAYS_IN_SECONDS : ℚ) * 1, 100, some "u"⟩ := by
  have h1 : previous_max "SRS Marker: 50" = some 50 := by
    have h2 := scanMarkers_getLast [] ['5', '0'] (by decide) (by decide)
    rw [previous_max, show "SRS Marker: 50".data = ([] : List Char) ++ markerPat ++ ['5', '0'] from rfl, h2]
    rw [show digitsVal ['5', '0'] = 50 from by decide]
    simp
  have := C5_duration_overwrites_marker ⟨0, 100, none⟩ "SRS Marker: 50" "u" 50 1 h1 (by omega)
  simpa using this

/-- C6: (i) every submission retained by the window scan satisfies
`min_date < created_utc ≤ max_date` for the bounds the scan was entered
with; (ii) the scan stops at the first listed post with
`created_utc ≤ min_date` — the listing beyond it is never examined, so
replacing it with anything (here: truncating it) leaves the result
unchanged. -/
theorem C6_window_invariant_and_stop (user : String) (sl ex : Bool) (maxd mind : ℚ)
    (prev : Option String) :
    (∀ (listing : List Submission) (m : ℚ) (p : Option String) (subs : List Submission),
      fetch_scan user sl ex maxd mind prev listing = .ok (m, p, subs) →
      ∀ s ∈ subs, mind < s.created_utc ∧ s.created_utc ≤ maxd)
    ∧ (∀ (xs : List Submission) (b : Submission) (ys : List Submission),
      mind ≤ maxd → b.created_utc ≤ mind →
      fetch_scan user sl ex maxd mind prev (xs ++ b :: ys) =
        fetch_scan user sl ex maxd mind prev (xs ++ [b])) :=
  ⟨fun listing => fetch_scan_mem_bounds user sl ex maxd listing mind prev,
   fun xs b ys hmx hb => fetch_scan_stop user sl ex maxd b ys [] (le_trans hb hmx) xs mind prev hb⟩

/-- C6 witness: the spec's end-to-end instance — posts created at 30, 20,
10, 5 (newest first) with `low_bound = 15`, `high_bound = 35` retain
exactly the posts at 30 and 20, within bounds, and the post at 5 beyond
the stopping post at 10 is never examined. -/
theorem C6_witness :
    (∀ s ∈ [mkSub 30 "alice" "t1" 1 1 0, mkSub 20 "bob" "t2" 1 1 0],
      (15 : ℚ) < s.created_utc ∧ s.created_utc ≤ 35)
    ∧ fetch_scan "me" true false 35 15 none
        [mkSub 30 "alice" "t1" 1 1 0, mkSub 20 "bob" "t2" 1 1 0,
          mkSub 10 "carol" "t3" 1 1 0, mkSub 5 "dan" "t4" 1 1 0] =
      fetch_scan "me" true false 35 15 none
        [mkSub 30 "alice" "t1" 1 1 0, mkSub 20 "bob" "t2" 1 1 0, mkSub 10 "carol" "t3" 1 1 0] := by
  refine ⟨?_, ?_⟩
  · intro s hs
    refine (C6_window_invariant_and_stop "me" true false 35 15 none).1
      [mkSub 30 "alice" "t1" 1 1 0, mkSub 20 "bob" "t2" 1 1 0,
        mkSub 10 "carol" "t3" 1 1 0, mkSub 5 "dan" "t4" 1 1 0]
      15 none [mkSub 30 "alice" "t1" 1 1 0, mkSub 20 "bob" "t2" 1 1 0] ?_ s hs
    rfl
  · exact (C6_window_invariant_and_stop "me" true false 35 15 none).2
      [mkSub 30 "alice" "t1" 1 1 0, mkSub 20 "bob" "t2" 1 1 0]
      (mkSub 10 "carol" "t3" 1 1 0) [mkSub 5 "dan" "t4" 1 1 0]
      (by norm_num) (by norm_num [mkSub])

/-- C7: `top_authors` orders author groups so that every earlier entry's
`(total score, item count)` key is lexicographically at least every later
entry's (both components descending), and on the spec's example totals
(A,100,3), (B,100,5), (C,90,10) the top-3 comes out B, A, C. -/
theorem C7_top_authors_order :
    (∀ (α : Type) (score : α → ℤ) (groups : List (String × List α)) (num : ℕ),
      (top_authors score groups num).Pairwise
        (fun a b => pairGe (groupKey score a) (groupKey score b) = true))
    ∧ (top_authors (fun x : ℤ => x) exampleGroups 3).map Prod.fst = ["B", "A", "C"] := by
  constructor
  · intro α score groups num
    exact List.Pairwise.sublist (List.take_sublist num _)
      (sortDesc_pairwise (fun a b => pairGe (groupKey score a) (groupKey score b))
        (fun a b c hab hbc => pairGe_trans _ _ _ hab hbc)
        (fun a b hab => pairGe_total _ _ hab) groups)
  · decide

/-- C8: post ranking uses the raw pre-computed `score` field while comment
ranking uses the net `ups − downs`: whenever one item's governing metric
strictly exceeds another's, it is ranked first, regardless of every other
field. -/
theorem C8_score_asymmetry :
    (∀ p q : Submission, q.score < p.score → top_submissions_list [q, p] 2 = [p, q])
    ∧ (∀ c d : RComment, commentScore d < commentScore c → top_comments_list [d, c] 2 = [c, d]) := by
  constructor
  · intro p q h
    have hge : decide (p.score ≤ q.score) = false := decide_eq_false (not_le.mpr h)
    simp [top_submissions_list, sortDesc, insertDesc, hge]
  · intro c d h
    have hge : decide (commentScore c ≤ commentScore d) = false := decide_eq_false (not_le.mpr h)
    simp [top_comments_list, sortDesc, insertDesc, hge]

/-- C8 witness: a post with the larger `score` ranks first despite far
fewer upvotes, and a comment with the larger net score ranks first despite
far fewer raw upvotes. -/
theorem C8_witness :
    top_submissions_list [mkSub 0 "q" "tq" 5 100 0, mkSub 0 "p" "tp" 10 0 0] 2 =
      [mkSub 0 "p" "tp" 10 0 0, mkSub 0 "q" "tq" 5 100 0]
    ∧ top_comments_list [mkCom "d" 100 90, mkCom "c" 20 0] 2 =
      [mkCom "c" 20 0, mkCom "d" 100 90] :=
  ⟨C8_score_asymmetry.1 (mkSub 0 "p" "tp" 10 0 0) (mkSub 0 "q" "tq" 5 100 0) (by decide),
   C8_score_asymmetry.2 (mkCom "c" 20 0) (mkCom "d" 100 90) (by decide)⟩

/-- C9: `_submit` (i) re-raises any non-rate-limit exception immediately,
unretried; (ii) re-raises a whole `ExceptionList` containing no rate-limit
error; (iii) on an `ExceptionList` containing a rate-limit error, sleeps
the first such error's duration and retries; (iv) on `RateLimitExceeded`
sleeps the suggested duration and retries; and (v) for any number `k` of
consecutive rate-limit responses followed by a success, sleeps each
suggested duration once, in order, and returns the final value — no retry
limit. -/
theorem C9_submit_retry (α : Type) (call : ℕ → CallResult α) (fuel i : ℕ) (sleeps : List ℕ) :
    (∀ e, call i = .other e → submitLoop call (fuel + 1) i sleeps = .raisedOther e sleeps)
    ∧ (∀ errs, call i = .exceptionList errs → (∀ t, BatchErr.rate t ∉ errs) →
        submitLoop call (fuel + 1) i sleeps = .raisedBatch errs sleeps)
    ∧ (∀ errs, call i = .exceptionList errs → (∃ t, BatchErr.rate t ∈ errs) →
        ∃ t', firstRateSleep errs = some t' ∧
          submitLoop call (fuel + 1) i sleeps = submitLoop call fuel (i + 1) (sleeps ++ [t']))
    ∧ (∀ t, call i = .rateLimit t →
        submitLoop call (fuel + 1) i sleeps = submitLoop call fuel (i + 1) (sleeps ++ [t]))
    ∧ (∀ (k : ℕ) (ts : ℕ → ℕ) (v : α),
        (∀ j, j < k → call j = .rateLimit (ts j)) → call k = .ok v →
        submitLoop call (k + 1) 0 [] = .success v ((List.range k).map ts)) := by
  refine ⟨?_, ?_, ?_, ?_, ?_⟩
  · intro e he
    rw [submitLoop, he]
  · intro errs herrs hno
    rw [submitLoop, herrs]
    show (match firstRateSleep errs with
      | some t => submitLoop call fuel (i + 1) (sleeps ++ [t])
      | none => SubmitOutcome.raisedBatch errs sleeps) = SubmitOutcome.raisedBatch errs sleeps
    rw [firstRateSleep_eq_none errs hno]
  · intro errs herrs hex
    rcases firstRateSleep_isSome errs hex with ⟨t', ht'⟩
    refine ⟨t', ht', ?_⟩
    rw [submitLoop, herrs]
    show (match firstRateSleep errs with
      | some t => submitLoop call fuel (i + 1) (sleeps ++ [t])
      | none => SubmitOutcome.raisedBatch errs sleeps) = submitLoop call fuel (i + 1) (sleeps ++ [t'])
    rw [ht']
  · intro t ht
    rw [submitLoop, ht]
  · intro k ts v hrate hok
    have := submitLoop_rate_run call ts v k 0 [] (fun j hj => by simpa using hrate j hj)
      (by simpa using hok)
    simpa using this

/-- C9 witness: one rate-limit with wait 2 then success sleeps exactly
`[2]` and succeeds with 42; a plain exception propagates with no sleep; a
rate-limit-free exception list is re-raised whole with no sleep. -/
theorem C9_witness :
    submitLoop demoCall 2 0 [] = .success 42 [2]
    ∧ submitLoop (fun _ => CallResult.other (α := ℕ) "boom") 1 0 [] = .raisedOther "boom" []
    ∧ submitLoop (fun _ => CallResult.exceptionList (α := ℕ) [.other "x"]) 1 0 [] =
        .raisedBatch [.other "x"] [] := by
  refine ⟨?_, ?_, ?_⟩
  · have h := (C9_submit_retry ℕ demoCall 1 0 []).2.2.2.2 1 (fun _ => 2) 42
      (fun j hj => by interval_cases j; rfl) rfl
    simpa using h
  · exact (C9_submit_retry ℕ (fun _ => CallResult.other "boom") 0 0 []).1 "boom" rfl
  · refine (C9_submit_retry ℕ (fun _ => CallResult.exceptionList [.other "x"]) 0 0 []).2.1
      [.other "x"] rfl ?_
    intro t ht
    exact BatchErr.noConfusion (List.mem_singleton.mp ht)

/-- C10: in interactive mode with a body within budget and debug off, any
confirmation answer whose stripped, lowercased form is neither `y` nor
`yes` aborts the submission (never attempted), yet the title and body are
still printed. -/
theorem C10_decline_still_prints (body answer : String) (submitSucceeds : Bool)
    (hsize : body.length ≤ MAX_BODY_SIZE)
    (hy : pyLower (pyStrip answer) ≠ "y") (hyes : pyLower (pyStrip answer) ≠ "yes") :
    publishAfterLoop body false answer submitSucceeds = ⟨false, false, true⟩ := by
  simp [publishAfterLoop, not_lt.mpr hsize, hy, hyes]

/-- C10 witness: answering `" No "` declines submission but the report is
still printed, even though the submit would have succeeded. -/
theorem C10_witness : publishAfterLoop "report body" false " No " true = ⟨false, false, true⟩ :=
  C10_decline_still_prints "report body" " No " true (by decide) (by decide) (by decide)

end SubredditStats
